import Mathlib

namespace Ytdlpp

/-!
Verification of the yt-dlpp extraction, selection and download pipeline.

This file gives a shallow embedding, in Lean 4, of the parts of the C++
sources that the specification claims talk about:

* `src/youtube/extractor.cpp` — mime/codec parsing (`parse_format_metadata`),
  the `n`-parameter URL rewrite (`async_process_url_n`), per-format URL
  reconstruction (`async_process_fmt`), itag deduplication
  (`finalize_formats`), the multi-client fan-out / join (`fetch_all_clients`,
  `finish`), and the `Extractor::Impl` shutdown logic;
* `src/youtube/decipher.cpp` — the identity fallback of
  `SigDecipherer::decipher_signature` / `transform_n`;
* `src/downloader/downloader.cpp` — `Downloader::Impl::select_streams`;
* `src/media/audio_streamer.cpp` — the `AudioStream::Impl` chunk queue;
* `src/net/http_client.cpp` — the `AsyncDownloadSession` error mapping;
* `src/main.cpp` — the process exit-code paths.

C++ `std::string` values are modelled as `List Char`; `std::string::find`
is `findSub`, `substr(a, b)` is `(·.drop a).take b`.  `double` bitrates are
modelled as `Rat` (only their ordering is used).  Fallible operations
(places where the C++ would throw) return `Option`.
-/

/-- Model of `std::string::find(pat)`: index of the first occurrence of
`pat` in `hay`, or `none` for `npos`. -/
def findSub : List Char → List Char → Option Nat
  | [], pat => if pat = [] then some 0 else none
  | c :: t, pat =>
      if pat.isPrefixOf (c :: t) then some 0
      else (findSub t pat).map (· + 1)

/-- Substring containment, i.e. `find(pat) != npos`. -/
def containsSub (hay pat : List Char) : Bool :=
  (findSub hay pat).isSome

/-- String-level wrapper for `containsSub`, modelling `s.find(pat) != npos`. -/
def strContains (s pat : String) : Bool :=
  containsSub s.toList pat.toList

/-! ## `parse_format_metadata` — mime/ext/codec derivation

Embedding of the `if (!fmt.mime_type.empty())` block of
`AsyncSession::parse_format_metadata` (`src/youtube/extractor.cpp`).
The function returns `(ext, vcodec, acodec)`; the `VideoFormat` defaults
for all three fields are the empty string.  The `none` result models the
`std::out_of_range` thrown by `codecs.substr(comma + 2)` when the comma is
the last character of the codec list. -/

/-- The literal `codecs="` searched for in the mime type. -/
def codecsPat : List Char := ('c' :: 'o' :: 'd' :: 'e' :: 'c' :: 's' :: '=' :: '"' :: [])

/-- The codec sentinel literal `"none"`. -/
def nonePat : List Char := ('n' :: 'o' :: 'n' :: 'e' :: [])

/-- The `audio` main-type literal (`type_part.find("audio") == 0`). -/
def audioPat : List Char := ('a' :: 'u' :: 'd' :: 'i' :: 'o' :: [])

/-- Derivation of `ext` from the `main_type/sub_type` split of the part of
the mime type before the first `;` (`audio/mp4 → m4a`, `audio/webm → webm`,
otherwise the subtype; no slash leaves the default empty `ext`). -/
def extOfTypePart (typePart : List Char) : List Char :=
  match findSub typePart ('/' :: []) with
  | none => []
  | some slash =>
      let mainType := typePart.take slash
      let subType := typePart.drop (slash + 1)
      if mainType = audioPat ∧ subType = ('m' :: 'p' :: '4' :: []) then
        ('m' :: '4' :: 'a' :: [])
      else if mainType = audioPat ∧ subType = ('w' :: 'e' :: 'b' :: 'm' :: []) then
        ('w' :: 'e' :: 'b' :: 'm' :: [])
      else subType

/-- The content of the `codecs="…"` attribute of the mime type, when it is
present and terminated by a closing quote.  (Helper mirroring the first
steps of the codec branch of `parse_format_metadata`, used to state
hypotheses about the input.) -/
def codecsAttrContent (mime : List Char) : Option (List Char) :=
  match findSub mime codecsPat with
  | none => none
  | some codecsPos =>
      let start := codecsPos + 8
      match findSub (mime.drop start) ('"' :: []) with
      | none => none
      | some stop => some ((mime.drop start).take stop)

/-- Embedding of the mime-type block of `parse_format_metadata`: returns
`(ext, vcodec, acodec)`.  `none` models the `std::out_of_range` throw of
`codecs.substr(comma + 2)`.  An empty mime type leaves all three fields at
their (empty string) defaults. -/
def parseFormatCodecs (mime : List Char) : Option (List Char × List Char × List Char) :=
  if mime = [] then some ([], [], [])
  else
    let semi := (findSub mime (';' :: [])).getD mime.length
    let typePart := mime.take semi
    let ext := extOfTypePart typePart
    match findSub mime codecsPat with
    | none => some (ext, nonePat, nonePat)
    | some codecsPos =>
        let start := codecsPos + 8
        match findSub (mime.drop start) ('"' :: []) with
        | none => some (ext, [], [])
        | some stop =>
            let codecs := (mime.drop start).take stop
            match findSub codecs (',' :: []) with
            | some comma =>
                if comma + 2 ≤ codecs.length then
                  some (ext, codecs.take comma, codecs.drop (comma + 2))
                else none
            | none =>
                if audioPat.isPrefixOf typePart then
                  some (ext, nonePat, codecs)
                else
                  some (ext, codecs, nonePat)

/-- The spec's codec sentinel invariant: `vcodec == "none"` XOR
`acodec == "none"`, or both non-`"none"`; never both `"none"`. -/
def sentinelInv (v a : List Char) : Prop :=
  (v = nonePat ∧ a ≠ nonePat) ∨ (a = nonePat ∧ v ≠ nonePat) ∨
    (v ≠ nonePat ∧ a ≠ nonePat)

instance (v a : List Char) : Decidable (sentinelInv v a) := by
  unfold sentinelInv; infer_instance

/-! ## Percent coding and query-string structure

`async_process_fmt` URL-decodes `signatureCipher` values with
`boost::urls::decode_view`, and `async_process_url_n` reads and replaces
the (decoded) value of the `n` query parameter through
`boost::urls::url::params()`.  We model percent-decoding explicitly;
re-encoding on `params.replace` is modelled by `pctEncode`. -/

/-- Hexadecimal digit value. -/
def hexVal (c : Char) : Option Nat :=
  if '0' ≤ c ∧ c ≤ '9' then some (c.toNat - '0'.toNat)
  else if 'a' ≤ c ∧ c ≤ 'f' then some (c.toNat - 'a'.toNat + 10)
  else if 'A' ≤ c ∧ c ≤ 'F' then some (c.toNat - 'A'.toNat + 10)
  else none

/-- Percent-decoding of a pct-encoded string (`boost::urls::decode_view`);
an invalid escape is passed through. -/
def pctDecode : List Char → List Char
  | [] => []
  | '%' :: a :: b :: rest2 =>
      match hexVal a, hexVal b with
      | some x, some y => Char.ofNat (16 * x + y) :: pctDecode rest2
      | _, _ => '%' :: pctDecode (a :: b :: rest2)
  | c :: rest => c :: pctDecode rest
  termination_by l => l.length

/-- URL-unreserved characters (RFC 3986), kept verbatim on re-encoding. -/
def isUnreserved (c : Char) : Bool :=
  c.isAlphanum || c = '-' || c = '.' || c = '_' || c = '~'

/-- Upper-case hex digit of a value below 16. -/
def hexDigit (n : Nat) : Char :=
  if n < 10 then Char.ofNat ('0'.toNat + n) else Char.ofNat ('A'.toNat + n - 10)

/-- Percent-encoding applied when `boost::urls` serializes a replaced
parameter value. -/
def pctEncode : List Char → List Char
  | [] => []
  | c :: rest =>
      if isUnreserved c then c :: pctEncode rest
      else '%' :: hexDigit (c.toNat / 16 % 16) :: hexDigit (c.toNat % 16) :: pctEncode rest

/-- Split a list on a separator character (used for `&`-separated
query-parameter segments and `signatureCipher` pairs). -/
def splitOnSep (sep : Char) : List Char → List (List Char)
  | [] => [[]]
  | c :: rest =>
      let r := splitOnSep sep rest
      if c = sep then [] :: r
      else
        match r with
        | [] => [[c]]
        | seg :: segs => (c :: seg) :: segs

/-- Rejoin segments with a separator (inverse of `splitOnSep`). -/
def joinSep (sep : Char) : List (List Char) → List Char
  | [] => []
  | [seg] => seg
  | seg :: segs => seg ++ sep :: joinSep sep segs

/-- The key of a query segment: everything before the first `=` (the whole
segment when there is no `=`). -/
def segKey (seg : List Char) : List Char :=
  match findSub seg ('=' :: []) with
  | none => seg
  | some i => seg.take i

/-- The raw (still pct-encoded) value of a query segment: everything after
the first `=`, empty when there is no `=`. -/
def segRawVal (seg : List Char) : List Char :=
  match findSub seg ('=' :: []) with
  | none => []
  | some i => seg.drop (i + 1)

/-- Split a URL at the first `?` into the part before it and the query
string after it; `none` when the URL has no query. -/
def splitAtQuery (u : List Char) : Option (List Char × List Char) :=
  match findSub u ('?' :: []) with
  | none => none
  | some i => some (u.take i, u.drop (i + 1))

/-! ## `async_process_url_n` — the `n`-parameter rewrite

Embedding of `AsyncSession::async_process_url_n`
(`src/youtube/extractor.cpp`): parse the URL, look for the first `n`
query parameter; when its (decoded) value is non-empty, replace that
parameter's value with `transform_n` of it; in every other case the URL is
passed through unchanged. -/

/-- Process the `n` query parameter of a raw URL with the given transform
(`decipherer.async_transform_n` continuation in `async_process_url_n`). -/
def processUrlN (tn : List Char → List Char) (u : List Char) : List Char :=
  match splitAtQuery u with
  | none => u
  | some (pre, q) =>
      let segs := splitOnSep '&' q
      match segs.findIdx? (fun seg => segKey seg = ('n' :: [])) with
      | none => u
      | some i =>
          let nVal := pctDecode (segRawVal (segs.getD i []))
          if nVal = [] then u
          else
            pre ++ '?' ::
              joinSep '&' (segs.set i (('n' :: '=' :: []) ++ pctEncode (tn nVal)))

/-- The final URL differs from the original at most by the substitution of
the value of (the first) `n` query parameter: either it is unchanged, or it
is the original with exactly that one segment's value replaced. -/
def nSubstOnly (orig final : List Char) : Prop :=
  final = orig ∨
    ∃ pre q i v,
      splitAtQuery orig = some (pre, q) ∧
      (let segs := splitOnSep '&' q
       i < segs.length ∧ segKey (segs.getD i []) = ('n' :: []) ∧
       final = pre ++ '?' :: joinSep '&' (segs.set i (('n' :: '=' :: []) ++ v)))

/-! ## Data model — `VideoFormat` (`include/ytdlpp/types.hpp`)

Only the fields the verified operations touch are carried.  All string
fields default to the empty string, integers to `0` and
`language_preference` to `-1`, exactly as in the C++ struct.  `tbr` is a
C++ `double`; only its ordering is used, so it is modelled as `Rat`. -/

structure VideoFormat where
  itag : Int := 0
  url : String := ""
  mime_type : String := ""
  ext : String := ""
  vcodec : String := ""
  acodec : String := ""
  width : Int := 0
  height : Int := 0
  fps : Int := 0
  audio_sample_rate : Int := 0
  audio_channels : Int := 0
  tbr : Rat := 0
  content_length : Int := 0
  language : String := ""
  language_preference : Int := -1
deriving DecidableEq

/-! ## `SigDecipherer` (`src/youtube/decipher.cpp`)

State: the extracted signature / n-transform function names (empty when
`load_functions` failed before finding them or was never run) and the JS
engine call `js_.call_function` modelled as an oracle returning `none` on
error.  `decipher_signature` and `transform_n` fall back to the identity
on an empty function name or on a failed call, as in the source. -/

structure SigDecipherer where
  sig_func_name : List Char := []
  n_func_name : List Char := []
  jsCall : List Char → List Char → Option (List Char)

/-- Embedding of `SigDecipherer::decipher_signature`. -/
def decipher_signature (d : SigDecipherer) (signature : List Char) : List Char :=
  if d.sig_func_name = [] then signature
  else
    match d.jsCall d.sig_func_name signature with
    | some v => v
    | none => signature

/-- Embedding of `SigDecipherer::transform_n`. -/
def transform_n (d : SigDecipherer) (n : List Char) : List Char :=
  if d.n_func_name = [] then n
  else
    match d.jsCall d.n_func_name n with
    | some v => v
    | none => n

/-! ## `async_process_fmt` — per-format URL reconstruction

The `signatureCipher` is scanned `&`-pair by `&`-pair; the pct-decoded
values of the `s`, `sp` and `url` keys are collected (later occurrences
overwrite).  When the format has no direct `url` and the cipher yields a
non-empty `url` and `s`, the deciphered signature is appended as
`&<sp|"sig">=<sig>`; in every case the `n` parameter of the resulting URL
is rewritten; a format that still has no URL is dropped (`cb(nullopt)`). -/

/-- Scan of the `signatureCipher` string: returns `(s, sp, url)`. -/
def cipherFields (cipher : List Char) : List Char × List Char × List Char :=
  (splitOnSep '&' cipher).foldl
    (fun (acc : List Char × List Char × List Char) pair =>
      match findSub pair ('=' :: []) with
      | none => acc
      | some eqPos =>
          let key := pair.take eqPos
          let val := pctDecode (pair.drop (eqPos + 1))
          if key = ('s' :: []) then (val, acc.2.1, acc.2.2)
          else if key = ('s' :: 'p' :: []) then (acc.1, val, acc.2.2)
          else if key = ('u' :: 'r' :: 'l' :: []) then (acc.1, acc.2.1, val)
          else acc)
    ([], [], [])

/-- One format-reconstruction job: the metadata-parsed format plus the raw
`signatureCipher` field of the format JSON, when present. -/
structure FmtJob where
  fmt : VideoFormat
  signatureCipher : Option (List Char) := none

/-- Embedding of `AsyncSession::async_process_fmt` with the decipher and
n-transform calls abstracted as functions; `none` is `cb(std::nullopt)`
(the format is dropped). -/
def processFmt (dec tn : List Char → List Char) (j : FmtJob) : Option VideoFormat :=
  if j.fmt.url = "" then
    match j.signatureCipher with
    | some cipher =>
        let fields := cipherFields cipher
        if fields.2.2 ≠ [] ∧ fields.1 ≠ [] then
          let sig := dec fields.1
          let sep : List Char :=
            if containsSub fields.2.2 ('?' :: []) then ('&' :: []) else ('?' :: [])
          let spName := if fields.2.1 = [] then ('s' :: 'i' :: 'g' :: []) else fields.2.1
          let finalRaw := fields.2.2 ++ sep ++ spName ++ '=' :: sig
          some { j.fmt with url := String.mk (processUrlN tn finalRaw) }
        else none
    | none => none
  else
    some { j.fmt with url := String.mk (processUrlN tn j.fmt.url.toList) }

/-! ## `finalize_formats` — itag deduplication (`src/youtube/extractor.cpp`)

A `std::set<int>` of seen itags; the first occurrence of each itag is
kept, in order. -/

/-- Recursive core of the dedup loop; `seen` is the `std::set` contents. -/
def dedupByItag : List VideoFormat → List Int → List VideoFormat
  | [], _ => []
  | f :: rest, seen =>
      if f.itag ∈ seen then dedupByItag rest seen
      else f :: dedupByItag rest (f.itag :: seen)

/-- Embedding of `AsyncSession::finalize_formats` (the dedup step). -/
def finalizeFormats (l : List VideoFormat) : List VideoFormat :=
  dedupByItag l []

/-! ## `Downloader::Impl::select_streams` (`src/downloader/downloader.cpp`)

The selector special-cases only `"bestaudio"`; every other selector string
falls through to the generic best-video / best-audio scan. -/

/-- Embedding of the `get_vcodec_score` lambda (substring matches). -/
def get_vcodec_score (codec : String) : Int :=
  if strContains codec "av01" then 4
  else if strContains codec "vp9" || strContains codec "vp09" then 3
  else if strContains codec "avc1" || strContains codec "h264" then 2
  else if strContains codec "vp8" then 1
  else 0

/-- Embedding of the `get_acodec_score` lambda (substring matches). -/
def get_acodec_score (codec : String) : Int :=
  if strContains codec "opus" then 4
  else if strContains codec "vorbis" then 3
  else if strContains codec "mp4a" || strContains codec "aac" then 2
  else 0

/-- Embedding of the `compare_audio` lambda: `true` iff `candidate` should
replace `current` (`current == nullptr` always yields `true`). -/
def compareAudio (current : Option VideoFormat) (candidate : VideoFormat) : Bool :=
  match current with
  | none => true
  | some cur =>
      if candidate.language_preference ≠ cur.language_preference then
        decide (cur.language_preference < candidate.language_preference)
      else if candidate.audio_channels ≠ cur.audio_channels then
        decide (cur.audio_channels < candidate.audio_channels)
      else if get_acodec_score candidate.acodec ≠ get_acodec_score cur.acodec then
        decide (get_acodec_score cur.acodec < get_acodec_score candidate.acodec)
      else decide (cur.tbr < candidate.tbr)

/-- Embedding of the video `is_better` cascade (`resolution`, `fps`,
codec score, `tbr`); `current == nullptr` always yields `true`. -/
def compareVideo (current : Option VideoFormat) (candidate : VideoFormat) : Bool :=
  match current with
  | none => true
  | some cur =>
      if candidate.width * candidate.height ≠ cur.width * cur.height then
        decide (cur.width * cur.height < candidate.width * candidate.height)
      else if candidate.fps ≠ cur.fps then
        decide (cur.fps < candidate.fps)
      else if get_vcodec_score candidate.vcodec ≠ get_vcodec_score cur.vcodec then
        decide (get_vcodec_score cur.vcodec < get_vcodec_score candidate.vcodec)
      else decide (cur.tbr < candidate.tbr)

/-- The audio ranking key: `(language_preference, audio_channels, codec
score, tbr)` compared lexicographically. -/
def audioKey (f : VideoFormat) : Int × Int × Int × Rat :=
  (f.language_preference, f.audio_channels, get_acodec_score f.acodec, f.tbr)

/-- Strict lexicographic order on audio ranking keys. -/
def keyLt (k1 k2 : Int × Int × Int × Rat) : Prop :=
  k1.1 < k2.1 ∨ (k1.1 = k2.1 ∧
    (k1.2.1 < k2.2.1 ∨ (k1.2.1 = k2.2.1 ∧
      (k1.2.2.1 < k2.2.2.1 ∨ (k1.2.2.1 = k2.2.2.1 ∧ k1.2.2.2 < k2.2.2.2)))))

instance (k1 k2 : Int × Int × Int × Rat) : Decidable (keyLt k1 k2) := by
  unfold keyLt; infer_instance

/-- Candidate filter of the audio scan: `vcodec == "none" && acodec != "none"`. -/
def audioCands (l : List VideoFormat) : List VideoFormat :=
  l.filter (fun f => decide (f.vcodec = "none" ∧ f.acodec ≠ "none"))

/-- Audio candidates whose `language` exactly equals the preferred
language (`preferred_lang && f.language == *preferred_lang`). -/
def matchCands (pl : Option String) (l : List VideoFormat) : List VideoFormat :=
  (audioCands l).filter (fun f => decide (pl = some f.language))

/-- One step of the audio scan: updates the tracked
`(preferred, best)` pair exactly as the loop body does. -/
def updAudio (pl : Option String) (st : Option VideoFormat × Option VideoFormat)
    (f : VideoFormat) : Option VideoFormat × Option VideoFormat :=
  if f.vcodec = "none" ∧ f.acodec ≠ "none" then
    ((if (pl = some f.language) ∧ compareAudio st.1 f = true then some f else st.1),
     (if compareAudio st.2 f = true then some f else st.2))
  else st

/-- The audio scan over the format list: returns `(preferred, best)`.
The same update is performed (with the conjunction of the candidate test
written in the opposite order) by the audio half of the generic path. -/
def selectAudioPair (pl : Option String) (l : List VideoFormat) :
    Option VideoFormat × Option VideoFormat :=
  l.foldl (updAudio pl) (none, none)

/-- One step of the generic path: updates
`(best_video, best_audio_preferred_, best_audio)`. -/
def updGeneral (pl : Option String)
    (st : Option VideoFormat × Option VideoFormat × Option VideoFormat)
    (f : VideoFormat) :
    Option VideoFormat × Option VideoFormat × Option VideoFormat :=
  ((if f.vcodec ≠ "none" then
      (if compareVideo st.1 f = true then some f else st.1)
    else st.1),
   (if f.acodec ≠ "none" ∧ f.vcodec = "none" then
      ((if (pl = some f.language) ∧ compareAudio st.2.1 f = true then some f else st.2.1),
       (if compareAudio st.2.2 f = true then some f else st.2.2))
    else st.2))

/-- The result of stream selection (`Downloader::StreamInfo`). -/
structure StreamInfo where
  video : Option VideoFormat := none
  audio : Option VideoFormat := none
deriving DecidableEq

/-- Embedding of `Downloader::Impl::select_streams`.  Only `"bestaudio"`
is treated specially; any other selector takes the generic path. -/
def select_streams (formats : List VideoFormat) (selector : String)
    (preferred_lang : Option String) : StreamInfo :=
  if selector = "bestaudio" then
    let st := selectAudioPair preferred_lang formats
    { video := none,
      audio := match st.1 with
               | some g => some g
               | none => st.2 }
  else
    let st := formats.foldl (updGeneral preferred_lang) (none, none, none)
    { video := st.1,
      audio := match st.2.1 with
               | some g => some g
               | none => st.2.2 }

/-- The tracked element is a maximum of the candidate set seen so far:
`none` iff nothing was seen, otherwise a member no other member beats. -/
def isMaxOf (b : Option VideoFormat) (cs : List VideoFormat) : Prop :=
  match b with
  | none => cs = []
  | some g => g ∈ cs ∧ ∀ f ∈ cs, ¬ keyLt (audioKey g) (audioKey f)

/-! ## Error taxonomy (`include/ytdlpp/result.hpp`) -/

inductive Errc where
  | success
  | request_failed
  | http_error
  | json_parse_error
  | invalid_url
  | video_not_found
  | extraction_failed
  | decipher_failed
  | n_param_failed
  | file_open_failed
  | file_write_failed
  | invalid_number_format
  | unknown
deriving DecidableEq

/-! ## Innertube fan-out and join (`AsyncSession::fetch_all_clients` / `finish`)

`fetch_all_clients` issues one POST per client of the fixed priority list
and, in each completion callback, appends the response to `responses`
under a mutex — i.e. in arrival order — unless the request failed or
`playabilityStatus.status != "OK"`.  When the pending counter reaches
zero, `finish` extracts the video metadata from `responses[0]`. -/

/-- The fixed client set, in the order `get_clients()` returns it. -/
def clientPriority : List String :=
  ["android_sdkless", "tv", "web_safari", "web"]

/-- The slice of an Innertube player response that `finish` /
`extract_video_metadata` reads: the playability status (`none` when the
field is absent) and the `videoDetails` fields used as primary metadata. -/
structure PlayerResponse where
  playabilityStatus : Option String := none
  title : String := ""
  author : String := ""
  viewCount : Int := 0
deriving DecidableEq

/-- Acceptance test of `fetch_all_clients`: a response is kept unless it
carries a `playabilityStatus` whose status is not `"OK"`. -/
def responseAccepted (r : PlayerResponse) : Bool :=
  match r.playabilityStatus with
  | none => true
  | some s => s == "OK"

/-- Whether one client completion contributes to `responses` (`none`
models a failed request, which only decrements the pending counter). -/
def acceptedArrival (a : String × Option PlayerResponse) : Bool :=
  match a.2 with
  | some r => responseAccepted r
  | none => false

/-- The `responses` vector at join time, given the completion (arrival)
order of the N client calls. -/
def collectResponses (arrivals : List (String × Option PlayerResponse)) :
    List (String × PlayerResponse) :=
  arrivals.filterMap (fun a =>
    match a.2 with
    | some r => if responseAccepted r then some (a.1, r) else none
    | none => none)

/-- The primary metadata of a `VideoInfo` (the fields
`extract_video_metadata` copies from `videoDetails`). -/
structure VideoMeta where
  title : String := ""
  author : String := ""
  viewCount : Int := 0
deriving DecidableEq

/-- Embedding of `extract_video_metadata` (restricted to the carried
fields). -/
def extract_video_metadata (r : PlayerResponse) : VideoMeta :=
  { title := r.title, author := r.author, viewCount := r.viewCount }

/-- Embedding of the head of `AsyncSession::finish`: all clients failed or
unplayable yields `video_not_found`; otherwise the primary metadata comes
from `responses[0]`. -/
def finishPrimary (arrivals : List (String × Option PlayerResponse)) :
    Except Errc VideoMeta :=
  match collectResponses arrivals with
  | [] => Except.error Errc.video_not_found
  | (_, r) :: _ => Except.ok (extract_video_metadata r)

/-! ## `AudioStream::Impl` — the PCM chunk queue (`src/media/audio_streamer.cpp`)

State: the `deque` of decoded chunks, the `eof` / `producer_done` /
`cancelled` flags and the (at most one each) pending buffered and
allocating reads.  All four mutating operations of the source are
modelled as one step function.  Note that `push_data` appends to the
queue unconditionally (unless cancelled); there is no capacity check and
no wait. -/

structure AudioStreamState where
  buffer_queue : List (List Nat) := []
  eof : Bool := false
  producer_done : Bool := false
  cancelled : Bool := false
  pending_read : Option Nat := none
  pending_alloc_read : Bool := false
deriving DecidableEq

/-- Embedding of `AudioStream::Impl::push_data`: drop when cancelled,
otherwise append the chunk; when a read is pending, complete it from the
front of the queue (a buffered read of `size` bytes consumes
`min(size, front.size())` of the front chunk; an allocating read consumes
the whole front chunk); both pending slots are moved out. -/
def push_data (data : List Nat) (s : AudioStreamState) : AudioStreamState :=
  if s.cancelled then s
  else
    let q := s.buffer_queue ++ [data]
    match s.pending_read with
    | some size =>
        let front := q.headD []
        let toCopy := min size front.length
        let q2 := if front.length ≤ toCopy then q.tail
                  else (front.drop toCopy) :: q.tail
        { s with buffer_queue := q2, pending_read := none, pending_alloc_read := false }
    | none =>
        if s.pending_alloc_read then
          { s with buffer_queue := q.tail, pending_read := none,
                   pending_alloc_read := false }
        else
          { s with buffer_queue := q }

/-- Embedding of `AudioStream::Impl::set_eof`. -/
def set_eof (s : AudioStreamState) : AudioStreamState :=
  { s with eof := true, producer_done := true, pending_read := none,
           pending_alloc_read := false }

/-- Embedding of `AudioStream::Impl::cancel`. -/
def stream_cancel (s : AudioStreamState) : AudioStreamState :=
  { s with cancelled := true, pending_read := none, pending_alloc_read := false }

/-- Embedding of `AudioStream::async_read_impl` (state effect only):
immediate completion consumes from the front chunk, otherwise the read is
parked. -/
def async_read (size : Nat) (s : AudioStreamState) : AudioStreamState :=
  if s.buffer_queue ≠ [] ∨ s.eof = true ∨ s.cancelled = true then
    if s.cancelled then s
    else
      match s.buffer_queue with
      | [] => s
      | front :: restQ =>
          let toCopy := min size front.length
          if front.length ≤ toCopy then { s with buffer_queue := restQ }
          else { s with buffer_queue := (front.drop toCopy) :: restQ }
  else { s with pending_read := some size }

/-- Embedding of `AudioStream::async_read_alloc_impl` (state effect only). -/
def async_read_alloc (s : AudioStreamState) : AudioStreamState :=
  if s.buffer_queue ≠ [] ∨ s.eof = true ∨ s.cancelled = true then
    if s.cancelled then s
    else
      match s.buffer_queue with
      | [] => s
      | _ :: restQ => { s with buffer_queue := restQ }
  else { s with pending_alloc_read := true }

/-- One producer/consumer interaction with the stream. -/
inductive StreamOp where
  | push (data : List Nat)
  | read (size : Nat)
  | readAlloc
  | setEof
  | cancel
deriving DecidableEq

/-- Step function of the stream state machine. -/
def streamStep (s : AudioStreamState) : StreamOp → AudioStreamState
  | .push data => push_data data s
  | .read size => async_read size s
  | .readAlloc => async_read_alloc s
  | .setEof => set_eof s
  | .cancel => stream_cancel s

/-- A run of the stream from the freshly-opened state. -/
def runStream (ops : List StreamOp) : AudioStreamState :=
  ops.foldl streamStep {}

/-! ## `AsyncDownloadSession` error mapping (`src/net/http_client.cpp`)

The failure sites of `run` / `on_read_header` / `fail`: a file that cannot
be opened, a URL that does not parse, a transport-level error
(resolve/connect/handshake/write/read), or a chunk response with a status
other than 200 or 206. -/

/-- What `on_read_header` does with a chunk-response status: 200 rewinds
to a full-body download (total from `Content-Length`), 206 continues the
ranged protocol (total from `Content-Range`), anything else posts an
error. -/
inductive HeaderOutcome where
  | fullBody (totalSize : Option Int)
  | partialChunk (totalSize : Option Int)
  | failure (e : Errc)
deriving DecidableEq

/-- Embedding of `AsyncDownloadSession::on_read_header`. -/
def on_read_header (status : Nat) (contentLength : Option Int)
    (contentRangeTotal : Option Int) : HeaderOutcome :=
  if status = 200 then HeaderOutcome.fullBody contentLength
  else if status = 206 then HeaderOutcome.partialChunk contentRangeTotal
  else HeaderOutcome.failure Errc.request_failed

/-- A failure cause of the download session. -/
inductive DlEvent where
  | openFileFailed
  | urlParseFailed
  | transportError
  | headerStatus (status : Nat)
deriving DecidableEq

/-- The error kind the session posts for each failure cause (`none` when
the event is not a failure): `run` posts `file_open_failed` /
`invalid_url`, `fail` posts `request_failed`, and `on_read_header` posts
through the model above. -/
def downloadFailureKind : DlEvent → Option Errc
  | .openFileFailed => some Errc.file_open_failed
  | .urlParseFailed => some Errc.invalid_url
  | .transportError => some Errc.request_failed
  | .headerStatus s =>
      match on_read_header s none none with
      | .failure e => some e
      | _ => none

/-! ## `Extractor::Impl` — shutdown and post-shutdown processing
(`src/youtube/extractor.cpp`) -/

/-- A registered extraction session (only its cancellation flag is
observable here). -/
structure SessionState where
  cancelled : Bool := false
deriving DecidableEq

/-- The `Extractor::Impl` state: the `shutdown_flag`, the session
registry, and whether the JS engine is still up. -/
structure ExtractorImpl where
  shutdown_flag : Bool := false
  sessions : List SessionState := []
  jsAlive : Bool := true
deriving DecidableEq

/-- Embedding of `Extractor::Impl::shutdown`: a second call returns at the
`exchange`; the first cancels every registered session, clears the
registry and shuts the JS engine down. -/
def Extractor_shutdown (st : ExtractorImpl) : ExtractorImpl :=
  if st.shutdown_flag then st
  else { shutdown_flag := true, sessions := [], jsAlive := false }

/-- Observable outcome of one `async_process` call. -/
inductive ProcessResult where
  | completedWithError (e : Errc)
  | sessionStarted
deriving DecidableEq

/-- Embedding of `Extractor::Impl::async_process`: after shutdown the
handler is dispatched with `request_failed` and no session is created;
otherwise a session is registered and started. -/
def Extractor_async_process (st : ExtractorImpl) : ExtractorImpl × ProcessResult :=
  if st.shutdown_flag then (st, ProcessResult.completedWithError Errc.request_failed)
  else ({ st with sessions := st.sessions ++ [{}] }, ProcessResult.sessionStarted)

/-! ## `main` exit codes (`src/main.cpp`)

`run_app` prints extraction / download errors to stderr and returns
`void`; after `ioc.run()` the `main` function reaches `return 0`
unconditionally.  Exit code 1 is produced only for bad `--manual-merge`
arguments, a failed manual merge, a missing positional URL, and an
uncaught exception. -/

/-- What happened inside `run_app` (all branches return `void`). -/
inductive RunOutcome where
  | searchFailed
  | extractionFailed
  | downloadFailed
  | streamOpenFailed
  | completed
deriving DecidableEq

/-- The dispatch of one process invocation in `main`. -/
inductive CliInvocation where
  | help
  | manualMergeBadArgs
  | manualMerge (mergeOk : Bool)
  | missingUrl
  | run (outcome : RunOutcome)
  | uncaughtException
deriving DecidableEq

/-- The process exit code of `main` for each invocation shape. -/
def mainExitCode : CliInvocation → Nat
  | .help => 0
  | .manualMergeBadArgs => 1
  | .manualMerge ok => if ok then 0 else 1
  | .missingUrl => 1
  | .run _ => 0
  | .uncaughtException => 1

/-! ## Concrete data used by counterexamples and witnesses -/

/-- An accepted `android_sdkless` player response. -/
def respAndroid : PlayerResponse :=
  { playabilityStatus := some "OK", title := "Android title",
    author := "Channel", viewCount := 100 }

/-- An accepted `tv` player response with different metadata. -/
def respTv : PlayerResponse :=
  { playabilityStatus := some "OK", title := "TV title",
    author := "Channel", viewCount := 100 }

/-- A join in which the `android_sdkless` response arrives first. -/
def arrivalsPriorityFirst : List (String × Option PlayerResponse) :=
  [("android_sdkless", some respAndroid), ("tv", some respTv),
   ("web_safari", none), ("web", none)]

/-- The same four completions with the `tv` response arriving first. -/
def arrivalsTvFirst : List (String × Option PlayerResponse) :=
  [("tv", some respTv), ("android_sdkless", some respAndroid),
   ("web_safari", none), ("web", none)]

/-- An 1080p video-only format. -/
def fmtVideo137 : VideoFormat :=
  { itag := 137, url := "https://host.example/video", ext := "mp4",
    vcodec := "avc1.640028", acodec := "none", width := 1920, height := 1080,
    fps := 30, tbr := 4000 }

/-- An aac audio-only format. -/
def fmtAudio140 : VideoFormat :=
  { itag := 140, url := "https://host.example/audio", ext := "m4a",
    vcodec := "none", acodec := "mp4a.40.2", audio_channels := 2, tbr := 128 }

/-- A two-format list with one video-only and one audio-only format. -/
def demoFormats : List VideoFormat := [fmtVideo137, fmtAudio140]

/-- An English opus track with a higher ranking key. -/
def fmtEnOpus : VideoFormat :=
  { itag := 251, url := "https://host.example/en", ext := "webm",
    vcodec := "none", acodec := "opus", language := "en",
    language_preference := 10, audio_channels := 2, tbr := 160 }

/-- A Spanish aac track with a lower ranking key. -/
def fmtEsAac : VideoFormat :=
  { itag := 140, url := "https://host.example/es", ext := "m4a",
    vcodec := "none", acodec := "mp4a.40.2", language := "es",
    language_preference := 5, audio_channels := 2, tbr := 128 }

/-- Audio-only formats in two languages. -/
def demoAudioFormats : List VideoFormat := [fmtEnOpus, fmtEsAac]

/-- A decipherer whose solver never reached the ready state: no function
names were extracted and every JS call errors. -/
def deadDecipherer : SigDecipherer := { jsCall := fun _ _ => none }

/-- A format-reconstruction job whose format already carries a URL with an
`n` query parameter. -/
def fmtWithUrl : FmtJob :=
  { fmt := { itag := 22, url := "https://host.example/v?a=1&n=abc&b=2" } }

/-- Three reconstruction jobs, two of them sharing itag 137. -/
def demoJobs : List FmtJob :=
  [{ fmt := fmtVideo137 }, { fmt := fmtVideo137 }, { fmt := fmtAudio140 }]

theorem findSub_isSome_of_prefix (hay pat : List Char)
    (h : pat.isPrefixOf hay = true) : (findSub hay pat).isSome = true := by
  cases hay with
  | nil =>
      cases pat with
      | nil => simp [findSub]
      | cons c t => simp [List.isPrefixOf] at h
  | cons c t => simp [findSub, h]

theorem findSub_isSome_of_prefix_drop (hay pat : List Char) (i : Nat)
    (h : pat.isPrefixOf (hay.drop i) = true) :
    (findSub hay pat).isSome = true := by
  induction hay generalizing i with
  | nil =>
      simp only [List.drop_nil] at h
      exact findSub_isSome_of_prefix [] pat h
  | cons c t ih =>
      cases i with
      | zero => exact findSub_isSome_of_prefix (c :: t) pat h
      | succ j =>
          simp only [List.drop_succ_cons] at h
          have ht := ih j h
          simp only [findSub]
          by_cases hp : pat.isPrefixOf (c :: t) = true
          · simp [hp]
          · simp only [hp]
            simp only [Bool.false_eq_true, if_false]
            rcases Option.isSome_iff_exists.mp ht with ⟨k, hk⟩
            simp [hk]

theorem splitOnSep_ne_nil (sep : Char) (l : List Char) :
    splitOnSep sep l ≠ [] := by
  cases l with
  | nil => simp [splitOnSep]
  | cons c rest =>
      simp only [splitOnSep]
      split
      · simp
      · split <;> simp

theorem joinSep_splitOnSep (sep : Char) (l : List Char) :
    joinSep sep (splitOnSep sep l) = l := by
  induction l with
  | nil => rfl
  | cons c rest ih =>
      simp only [splitOnSep]
      by_cases h : c = sep
      · rw [if_pos h, h]
        cases hr : splitOnSep sep rest with
        | nil => exact absurd hr (splitOnSep_ne_nil sep rest)
        | cons seg segs =>
            simp only [joinSep, List.nil_append]
            rw [← hr, ih]
      · rw [if_neg h]
        cases hr : splitOnSep sep rest with
        | nil => exact absurd hr (splitOnSep_ne_nil sep rest)
        | cons seg segs =>
            cases segs with
            | nil =>
                rw [hr] at ih
                simp only [joinSep] at ih ⊢
                rw [ih]
            | cons s2 ss =>
                rw [hr] at ih
                simp only [joinSep, List.cons_append] at ih ⊢
                rw [ih]

theorem processUrlN_nSubstOnly (tn : List Char → List Char) (u : List Char) :
    nSubstOnly u (processUrlN tn u) := by
  unfold processUrlN
  cases hq : splitAtQuery u with
  | none => exact Or.inl rfl
  | some pq =>
      obtain ⟨pre, q⟩ := pq
      simp only
      cases hi : (splitOnSep '&' q).findIdx? (fun seg => segKey seg = ('n' :: [])) with
      | none => exact Or.inl rfl
      | some i =>
          simp only
          by_cases hv : pctDecode (segRawVal ((splitOnSep '&' q).getD i [])) = []
          · simp only [hv, if_pos rfl]; exact Or.inl rfl
          · simp only [if_neg hv]
            refine Or.inr ⟨pre, q, i,
              pctEncode (tn (pctDecode (segRawVal ((splitOnSep '&' q).getD i [])))), hq, ?_, ?_, rfl⟩
            · exact List.findIdx?_eq_some_iff_findIdx_eq.mp hi |>.1
            · have := List.findIdx?_eq_some_iff_findIdx_eq.mp hi
              have hget := List.findIdx?_eq_some_iff_getElem.mp hi
              obtain ⟨hlt, hp, _⟩ := hget
              have : segKey ((splitOnSep '&' q)[i]) = ('n' :: []) := by
                simpa using of_decide_eq_true hp
              simpa [List.getD, List.getElem?_eq_getElem hlt] using this

/-- Processing a non-empty URL yields a non-empty URL. -/
theorem processUrlN_ne_nil (tn : List Char → List Char) (u : List Char)
    (h : u ≠ []) : processUrlN tn u ≠ [] := by
  unfold processUrlN
  cases hq : splitAtQuery u with
  | none => exact h
  | some pq =>
      obtain ⟨pre, q⟩ := pq
      simp only
      cases hi : (splitOnSep '&' q).findIdx? (fun seg => segKey seg = ('n' :: [])) with
      | none => exact h
      | some i =>
          simp only
          by_cases hv : pctDecode (segRawVal ((splitOnSep '&' q).getD i [])) = []
          · simp only [hv, if_pos rfl]; exact h
          · simp only [if_neg hv]
            intro hcontra
            rcases pre with _ | ⟨c, cs⟩ <;> simp_all

theorem mk_eq_empty_iff (l : List Char) : String.mk l = "" ↔ l = [] := by
  constructor
  · intro h
    have := congrArg String.data h
    simpa using this
  · rintro rfl; rfl

/-- Every format emitted by `async_process_fmt` carries a non-empty URL. -/
theorem processFmt_url_ne_empty (dec tn : List Char → List Char) (j : FmtJob)
    (f : VideoFormat) (h : processFmt dec tn j = some f) : f.url ≠ "" := by
  unfold processFmt at h
  by_cases hurl : j.fmt.url = ""
  · rw [if_pos hurl] at h
    cases hc : j.signatureCipher with
    | none => rw [hc] at h; exact absurd h (by simp)
    | some cipher =>
        rw [hc] at h
        simp only at h
        by_cases hne : (cipherFields cipher).2.2 ≠ [] ∧ (cipherFields cipher).1 ≠ []
        · rw [if_pos hne] at h
          have hf := (Option.some_injective _ h.symm ▸ rfl :
            f = { j.fmt with
              url := String.mk (processUrlN tn
                ((cipherFields cipher).2.2 ++
                  (if containsSub (cipherFields cipher).2.2 ('?' :: []) then ('&' :: [])
                   else ('?' :: [])) ++
                  (if (cipherFields cipher).2.1 = [] then ('s' :: 'i' :: 'g' :: [])
                   else (cipherFields cipher).2.1) ++ '=' :: dec (cipherFields cipher).1)) })
          rw [hf]
          simp only
          rw [Ne, mk_eq_empty_iff]
          apply processUrlN_ne_nil
          intro hcontra
          rcases h22 : (cipherFields cipher).2.2 with _ | ⟨c, cs⟩
          · exact hne.1 h22
          · rw [h22] at hcontra; simp at hcontra
        · rw [if_neg hne] at h; exact absurd h (by simp)
  · rw [if_neg hurl] at h
    have hf : f = { j.fmt with url := String.mk (processUrlN tn j.fmt.url.toList) } :=
      (Option.some_injective _ h).symm
    rw [hf]
    simp only
    rw [Ne, mk_eq_empty_iff]
    apply processUrlN_ne_nil
    intro hcontra
    apply hurl
    have := congrArg String.mk hcontra
    simpa using this

theorem dedupByItag_sublist (l : List VideoFormat) (seen : List Int) :
    (dedupByItag l seen).Sublist l := by
  induction l generalizing seen with
  | nil => simp [dedupByItag]
  | cons f rest ih =>
      simp only [dedupByItag]
      by_cases h : f.itag ∈ seen
      · rw [if_pos h]
        exact List.Sublist.cons f (ih seen)
      · rw [if_neg h]
        exact List.Sublist.cons₂ f (ih (f.itag :: seen))

theorem dedupByItag_not_seen (l : List VideoFormat) (seen : List Int) :
    ∀ f ∈ dedupByItag l seen, f.itag ∉ seen := by
  induction l generalizing seen with
  | nil => simp [dedupByItag]
  | cons f rest ih =>
      simp only [dedupByItag]
      by_cases h : f.itag ∈ seen
      · simpa [h] using ih seen
      · simp only [h, if_neg]
        intro g hg
        simp only [Bool.false_eq_true, if_false, List.mem_cons] at hg
        rcases hg with rfl | hg
        · exact h
        · intro hmem
          exact ih (f.itag :: seen) g hg (List.mem_cons_of_mem _ hmem)

theorem dedupByItag_pairwise (l : List VideoFormat) (seen : List Int) :
    (dedupByItag l seen).Pairwise (fun a b => a.itag ≠ b.itag) := by
  induction l generalizing seen with
  | nil => simp [dedupByItag]
  | cons f rest ih =>
      simp only [dedupByItag]
      by_cases h : f.itag ∈ seen
      · simpa [h] using ih seen
      · simp only [h, if_neg, Bool.false_eq_true, if_false]
        refine List.Pairwise.cons ?_ (ih (f.itag :: seen))
        intro g hg heq
        exact dedupByItag_not_seen rest (f.itag :: seen) g hg (heq ▸ List.mem_cons_self _ _)

theorem dedupByItag_find? (l : List VideoFormat) (seen : List Int) (i : Int)
    (hi : i ∉ seen) :
    (dedupByItag l seen).find? (fun f => f.itag == i) =
      l.find? (fun f => f.itag == i) := by
  induction l generalizing seen with
  | nil => simp [dedupByItag]
  | cons f rest ih =>
      simp only [dedupByItag]
      by_cases heq : f.itag = i
      · have hmem : f.itag ∉ seen := heq ▸ hi
        simp only [hmem, Bool.false_eq_true, if_false]
        simp [List.find?, heq]
      · by_cases hmem : f.itag ∈ seen
        · rw [if_pos hmem, ih seen hi]
          have hbe : (f.itag == i) = false := by simpa using heq
          simp [List.find?, hbe]
        · simp only [hmem, Bool.false_eq_true, if_false]
          have hi2 : i ∉ f.itag :: seen := by
            simp only [List.mem_cons]
            rintro (rfl | hc)
            · exact heq rfl
            · exact hi hc
          simp only [List.find?]
          have : (f.itag == i) = false := by simpa using heq
          rw [this]
          exact ih (f.itag :: seen) hi2

theorem keyLt_irrefl (k : Int × Int × Int × Rat) : ¬ keyLt k k := by
  simp [keyLt]

theorem keyLt_trans {a b c : Int × Int × Int × Rat}
    (h1 : keyLt a b) (h2 : keyLt b c) : keyLt a c := by
  unfold keyLt at h1 h2 ⊢
  rcases h1 with h1 | ⟨e1, h1⟩ <;> rcases h2 with h2 | ⟨e2, h2⟩
  · exact Or.inl (lt_trans h1 h2)
  · exact Or.inl (e2 ▸ h1)
  · exact Or.inl (e1 ▸ h2)
  · refine Or.inr ⟨e1.trans e2, ?_⟩
    rcases h1 with h1 | ⟨f1, h1⟩ <;> rcases h2 with h2 | ⟨f2, h2⟩
    · exact Or.inl (lt_trans h1 h2)
    · exact Or.inl (f2 ▸ h1)
    · exact Or.inl (f1 ▸ h2)
    · refine Or.inr ⟨f1.trans f2, ?_⟩
      rcases h1 with h1 | ⟨g1, h1⟩ <;> rcases h2 with h2 | ⟨g2, h2⟩
      · exact Or.inl (lt_trans h1 h2)
      · exact Or.inl (g2 ▸ h1)
      · exact Or.inl (g1 ▸ h2)
      · exact Or.inr ⟨g1.trans g2, lt_trans h1 h2⟩

theorem compareAudio_some_iff (cur cand : VideoFormat) :
    compareAudio (some cur) cand = true ↔ keyLt (audioKey cur) (audioKey cand) := by
  unfold compareAudio keyLt audioKey
  simp only
  by_cases h1 : cand.language_preference = cur.language_preference
  · rw [if_neg (not_not_intro h1)]
    by_cases h2 : cand.audio_channels = cur.audio_channels
    · rw [if_neg (not_not_intro h2)]
      by_cases h3 : get_acodec_score cand.acodec = get_acodec_score cur.acodec
      · rw [if_neg (not_not_intro h3), h1, h2, h3]
        simp [lt_irrefl]
      · rw [if_pos h3, h1, h2]
        have h3' : ¬(get_acodec_score cur.acodec = get_acodec_score cand.acodec) :=
          fun h => h3 h.symm
        simp [lt_irrefl, h3']
    · rw [if_pos h2, h1]
      have h2' : ¬(cur.audio_channels = cand.audio_channels) := fun h => h2 h.symm
      simp [lt_irrefl, h2']
  · rw [if_pos h1]
    have h1' : ¬(cur.language_preference = cand.language_preference) :=
      fun h => h1 h.symm
    simp [h1']

theorem isMaxOf_step (b : Option VideoFormat) (cs : List VideoFormat)
    (f : VideoFormat) (hb : isMaxOf b cs) :
    isMaxOf (if compareAudio b f = true then some f else b) (cs ++ [f]) := by
  cases b with
  | none =>
      simp only [isMaxOf] at hb
      subst hb
      simp only [compareAudio, if_pos rfl, isMaxOf, List.nil_append]
      exact ⟨List.mem_singleton_self f, by
        intro g hg
        rw [List.mem_singleton] at hg
        subst hg
        exact keyLt_irrefl _⟩
  | some g =>
      obtain ⟨hmem, hmax⟩ := hb
      by_cases hc : compareAudio (some g) f = true
      · rw [if_pos hc]
        have hlt : keyLt (audioKey g) (audioKey f) := (compareAudio_some_iff g f).mp hc
        refine ⟨List.mem_append_right cs (List.mem_singleton_self f), ?_⟩
        intro h hh
        rcases List.mem_append.mp hh with hh | hh
        · intro hfh
          exact hmax h hh (keyLt_trans hlt hfh)
        · rw [List.mem_singleton] at hh
          rw [hh]
          exact keyLt_irrefl _
      · rw [if_neg hc]
        refine ⟨List.mem_append_left _ hmem, ?_⟩
        intro h hh
        rcases List.mem_append.mp hh with hh | hh
        · exact hmax h hh
        · rw [List.mem_singleton] at hh
          intro hk
          exact hc ((compareAudio_some_iff g f).mpr (hh ▸ hk))

theorem foldAudio_inv (pl : Option String) (l : List VideoFormat) :
    ∀ (p b : Option VideoFormat) (csP csB : List VideoFormat),
      isMaxOf p csP → isMaxOf b csB →
      isMaxOf (l.foldl (updAudio pl) (p, b)).1 (csP ++ matchCands pl l) ∧
      isMaxOf (l.foldl (updAudio pl) (p, b)).2 (csB ++ audioCands l) := by
  induction l with
  | nil =>
      intro p b csP csB hp hb
      simp only [List.foldl_nil, matchCands, audioCands, List.filter_nil,
        List.append_nil]
      exact ⟨hp, hb⟩
  | cons f rest ih =>
      intro p b csP csB hp hb
      by_cases hcand : f.vcodec = "none" ∧ f.acodec ≠ "none"
      · have hA : audioCands (f :: rest) = f :: audioCands rest := by
          simp [audioCands, List.filter_cons, hcand]
        by_cases hpl : pl = some f.language
        · have hM : matchCands pl (f :: rest) = f :: matchCands pl rest := by
            simp [matchCands, hA, List.filter_cons, hpl]
          rw [List.foldl_cons]
          have hu : updAudio pl (p, b) f =
              ((if compareAudio p f = true then some f else p),
               (if compareAudio b f = true then some f else b)) := by
            simp [updAudio, hcand, hpl]
          rw [hu]
          have hp' := isMaxOf_step p csP f hp
          have hb' := isMaxOf_step b csB f hb
          have hrec := ih _ _ _ _ hp' hb'
          rw [hM, hA]
          rw [List.append_assoc, List.append_assoc] at hrec
          simpa using hrec
        · have hM : matchCands pl (f :: rest) = matchCands pl rest := by
            simp [matchCands, hA, List.filter_cons, hpl]
          rw [List.foldl_cons]
          have hu : updAudio pl (p, b) f =
              (p, (if compareAudio b f = true then some f else b)) := by
            simp [updAudio, hcand, hpl]
          rw [hu]
          have hb' := isMaxOf_step b csB f hb
          have hrec := ih _ _ _ _ hp hb'
          rw [hM, hA]
          refine ⟨hrec.1, ?_⟩
          have := hrec.2
          rw [List.append_assoc] at this
          simpa using this
      · have hA : audioCands (f :: rest) = audioCands rest := by
          simp [audioCands, List.filter_cons, hcand]
        have hM : matchCands pl (f :: rest) = matchCands pl rest := by
          simp [matchCands, hA]
        rw [List.foldl_cons]
        have hu : updAudio pl (p, b) f = (p, b) := by
          simp [updAudio, hcand]
        rw [hu, hM, hA]
        exact ih _ _ _ _ hp hb

/-- The audio components of the generic-path fold coincide with the
`bestaudio` scan (the two loop bodies differ only in the order of the
conjuncts of the candidate test and the shape of the null check). -/
theorem foldGeneral_audio (pl : Option String) (l : List VideoFormat) :
    ∀ (v p b : Option VideoFormat),
      (l.foldl (updGeneral pl) (v, p, b)).2 = l.foldl (updAudio pl) (p, b) := by
  induction l with
  | nil => intro v p b; rfl
  | cons f rest ih =>
      intro v p b
      rw [List.foldl_cons, List.foldl_cons]
      have hstep : (updGeneral pl (v, p, b) f).2 = updAudio pl (p, b) f := by
        simp only [updGeneral, updAudio]
        by_cases hcand : f.vcodec = "none" ∧ f.acodec ≠ "none"
        · rw [if_pos ⟨hcand.2, hcand.1⟩, if_pos hcand]
        · rw [if_neg (fun h => hcand ⟨h.2, h.1⟩), if_neg hcand]
      rw [← hstep]
      exact ih _ _ _

theorem collectResponses_head_find (arrivals : List (String × Option PlayerResponse))
    (n : String) (r : PlayerResponse) (rest : List (String × PlayerResponse))
    (h : collectResponses arrivals = (n, r) :: rest) :
    arrivals.find? acceptedArrival = some (n, some r) := by
  induction arrivals with
  | nil => simp [collectResponses] at h
  | cons a t ih =>
      obtain ⟨an, ar⟩ := a
      cases ar with
      | none =>
          simp only [collectResponses, List.filterMap_cons] at h
          rw [List.find?_cons_of_neg _ (by simp [acceptedArrival])]
          exact ih h
      | some resp =>
          by_cases hacc : responseAccepted resp = true
          · simp only [collectResponses, List.filterMap_cons, hacc, if_pos] at h
            have hn : an = n ∧ resp = r := by
              have := List.cons.injEq _ _ _ _ ▸ h
              constructor
              · exact (Prod.mk.injEq _ _ _ _ ▸ (List.head_eq_of_cons_eq h)).1
              · exact (Prod.mk.injEq _ _ _ _ ▸ (List.head_eq_of_cons_eq h)).2
            rw [List.find?_cons_of_pos _ (by simp [acceptedArrival, hacc])]
            rw [hn.1, hn.2]
          · have hacc' : responseAccepted resp = false := by
              simpa using hacc
            simp only [collectResponses, List.filterMap_cons, hacc',
              Bool.false_eq_true, if_false] at h
            rw [List.find?_cons_of_neg _ (by simp [acceptedArrival, hacc'])]
            exact ih h

theorem pushRun_length (d : List Nat) :
    ∀ (n : Nat) (s : AudioStreamState), s.cancelled = false →
      s.pending_read = none → s.pending_alloc_read = false →
      ((List.replicate n (StreamOp.push d)).foldl streamStep s).buffer_queue.length =
        s.buffer_queue.length + n := by
  intro n
  induction n with
  | zero => intro s _ _ _; simp
  | succ m ih =>
      intro s hc hp ha
      rw [List.replicate_succ, List.foldl_cons]
      have hstep : streamStep s (StreamOp.push d) =
          { s with buffer_queue := s.buffer_queue ++ [d] } := by
        simp [streamStep, push_data, hc, hp, ha]
      rw [hstep]
      rw [ih _ (by simp [hc]) (by simp [hp]) (by simp [ha])]
      simp
      omega

/-! ## Claim theorems -/

/-- C1, counterexample: the primary metadata source is NOT a deterministic
function of the set of accepted responses — the same accepted set, arriving
in two different orders, yields two different primary metadata records; in
the second run the metadata comes from `tv` although the accepted
`android_sdkless` response precedes it in the client priority order. -/
theorem c1_counterexample :
    (collectResponses arrivalsTvFirst).Perm (collectResponses arrivalsPriorityFirst) ∧
    finishPrimary arrivalsPriorityFirst = Except.ok (extract_video_metadata respAndroid) ∧
    finishPrimary arrivalsTvFirst = Except.ok (extract_video_metadata respTv) ∧
    clientPriority = ["android_sdkless", "tv", "web_safari", "web"] ∧
    extract_video_metadata respTv ≠ extract_video_metadata respAndroid := by
  refine ⟨by decide, rfl, rfl, rfl, by decide⟩

/-- C1, amended: whenever at least one Innertube response is accepted, the
primary metadata source of the emitted `VideoInfo` is the first accepted
response in ARRIVAL order (`responses[0]`), i.e. the first completion that
carried an accepted response — not the first in the client priority
order. -/
theorem c1_primary_is_first_accepted_arrival
    (arrivals : List (String × Option PlayerResponse)) (n : String)
    (r : PlayerResponse) (rest : List (String × PlayerResponse))
    (h : collectResponses arrivals = (n, r) :: rest) :
    finishPrimary arrivals = Except.ok (extract_video_metadata r) ∧
    arrivals.find? acceptedArrival = some (n, some r) := by
  constructor
  · unfold finishPrimary
    rw [h]
  · exact collectResponses_head_find arrivals n r rest h

/-- Witness for C1 at a concrete join: the `tv` response arrived first and
is the primary metadata source. -/
theorem c1_primary_is_first_accepted_arrival_witness :
    finishPrimary arrivalsTvFirst = Except.ok (extract_video_metadata respTv) ∧
    arrivalsTvFirst.find? acceptedArrival = some ("tv", some respTv) :=
  c1_primary_is_first_accepted_arrival arrivalsTvFirst "tv" respTv
    [("android_sdkless", respAndroid)] (by decide)

/-- C2, counterexample: a non-empty mime type without a `codecs="…"`
attribute makes `parse_format_metadata` set BOTH `vcodec` and `acodec` to
the sentinel `"none"`, violating the claimed invariant. -/
theorem c2_counterexample :
    parseFormatCodecs ("video/mp4".toList) =
      some ("mp4".toList, nonePat, nonePat) ∧
    ¬ sentinelInv nonePat nonePat := by
  exact ⟨by decide, by decide⟩

/-- C2, amended: the codec sentinel invariant holds for every format whose
mime type carries a terminated `codecs="…"` attribute in which the literal
`none` does not occur; a non-empty mime type WITHOUT a `codecs="` attribute
instead yields `vcodec = acodec = "none"`. -/
theorem c2_codec_sentinel :
    (∀ (mime e v a cs : List Char),
        parseFormatCodecs mime = some (e, v, a) →
        codecsAttrContent mime = some cs →
        findSub cs nonePat = none →
        sentinelInv v a) ∧
    (∀ mime : List Char, mime ≠ [] → findSub mime codecsPat = none →
        ∃ e, parseFormatCodecs mime = some (e, nonePat, nonePat)) := by
  constructor
  · intro mime e v a cs hp hc hn
    by_cases hm : mime = []
    · rw [hm] at hc
      simp [codecsAttrContent, findSub, codecsPat] at hc
    · unfold parseFormatCodecs at hp
      rw [if_neg hm] at hp
      unfold codecsAttrContent at hc
      cases hfp : findSub mime codecsPat with
      | none => rw [hfp] at hc; exact absurd hc (by simp)
      | some codecsPos =>
          simp only [hfp] at hp hc
          cases hfq : findSub (mime.drop (codecsPos + 8)) ('"' :: []) with
          | none =>
              simp only [hfq] at hc
              exact Option.noConfusion hc
          | some stop =>
              simp only [hfq, Option.some.injEq] at hp hc
              subst hc
              have hnone_free : ∀ i : Nat,
                  ¬ nonePat.isPrefixOf (((mime.drop (codecsPos + 8)).take stop).drop i) = true := by
                intro i hpre
                have := findSub_isSome_of_prefix_drop _ nonePat i hpre
                rw [hn] at this
                simp at this
              cases hcm : findSub ((mime.drop (codecsPos + 8)).take stop) (',' :: []) with
              | some comma =>
                  simp only [hcm] at hp
                  by_cases hle : comma + 2 ≤ ((mime.drop (codecsPos + 8)).take stop).length
                  · rw [if_pos hle] at hp
                    simp only [Option.some.injEq, Prod.mk.injEq] at hp
                    obtain ⟨-, hv, ha⟩ := hp
                    refine Or.inr (Or.inr ⟨?_, ?_⟩)
                    · intro hveq
                      apply hnone_free 0
                      rw [List.drop_zero]
                      rw [← hveq, ← hv]
                      have : ((mime.drop (codecsPos + 8)).take stop).take comma <+:
                          (mime.drop (codecsPos + 8)).take stop := List.take_prefix _ _
                      exact List.isPrefixOf_iff_prefix.mpr this
                    · intro haeq
                      apply hnone_free (comma + 2)
                      rw [← haeq, ← ha]
                      exact List.isPrefixOf_iff_prefix.mpr (List.prefix_refl _)
                  · rw [if_neg hle] at hp
                    exact absurd hp (by simp)
              | none =>
                  simp only [hcm] at hp
                  have hcs : ¬ ((mime.drop (codecsPos + 8)).take stop) = nonePat := by
                    intro heq
                    apply hnone_free 0
                    rw [List.drop_zero, heq]
                    exact List.isPrefixOf_iff_prefix.mpr (heq ▸ List.prefix_refl _)
                  by_cases haud : audioPat.isPrefixOf
                      (mime.take ((findSub mime (';' :: [])).getD mime.length)) = true
                  · rw [if_pos haud] at hp
                    simp only [Option.some.injEq, Prod.mk.injEq] at hp
                    obtain ⟨-, hv, ha⟩ := hp
                    exact Or.inl ⟨hv.symm, fun hcon => hcs (ha ▸ hcon)⟩
                  · rw [if_neg haud] at hp
                    simp only [Option.some.injEq, Prod.mk.injEq] at hp
                    obtain ⟨-, hv, ha⟩ := hp
                    exact Or.inr (Or.inl ⟨ha.symm, fun hcon => hcs (hv ▸ hcon)⟩)
  · intro mime hm hf
    refine ⟨extOfTypePart (mime.take ((findSub mime (';' :: [])).getD mime.length)), ?_⟩
    unfold parseFormatCodecs
    rw [if_neg hm]
    simp [hf]

/-- Witness for C2 at a well-formed two-codec mime type. -/
theorem c2_codec_sentinel_witness :
    parseFormatCodecs ("video/webm; codecs=\"vp9, opus\"".toList) =
      some ("webm".toList, "vp9".toList, "opus".toList) ∧
    sentinelInv ("vp9".toList) ("opus".toList) :=
  ⟨by decide,
   c2_codec_sentinel.1 ("video/webm; codecs=\"vp9, opus\"".toList)
     ("webm".toList) ("vp9".toList) ("opus".toList) ("vp9, opus".toList)
     (by decide) (by decide) (by decide)⟩

/-- C3: after finalization the itags of the emitted format list are
pairwise distinct, the list is a sublist of (hence preserves the relative
order of) the collected formats, the first occurrence of each itag is the
one kept, and every retained format carries a non-empty URL (formats whose
URL is still empty after signature/n processing were dropped by
`async_process_fmt`). -/
theorem c3_itag_dedup_and_url_nonempty (jobs : List FmtJob)
    (dec tn : List Char → List Char) :
    (finalizeFormats (jobs.filterMap (processFmt dec tn))).Pairwise
        (fun a b => a.itag ≠ b.itag) ∧
    (finalizeFormats (jobs.filterMap (processFmt dec tn))).Sublist
        (jobs.filterMap (processFmt dec tn)) ∧
    (∀ i : Int,
      (finalizeFormats (jobs.filterMap (processFmt dec tn))).find?
          (fun f => f.itag == i) =
        (jobs.filterMap (processFmt dec tn)).find? (fun f => f.itag == i)) ∧
    (∀ f ∈ finalizeFormats (jobs.filterMap (processFmt dec tn)), f.url ≠ "") := by
  refine ⟨dedupByItag_pairwise _ [], dedupByItag_sublist _ [],
    fun i => dedupByItag_find? _ [] i (by simp), ?_⟩
  intro f hf
  have hmem : f ∈ jobs.filterMap (processFmt dec tn) :=
    (dedupByItag_sublist _ []).subset hf
  rcases List.mem_filterMap.mp hmem with ⟨j, -, hj⟩
  exact processFmt_url_ne_empty dec tn j f hj

/-- Witness for C3 at three concrete jobs with a duplicated itag. -/
theorem c3_itag_dedup_and_url_nonempty_witness :
    ((finalizeFormats (demoJobs.filterMap
        (processFmt (fun s => s) (fun s => s)))).find? (fun f => f.itag == (137 : Int)) =
      (demoJobs.filterMap (processFmt (fun s => s) (fun s => s))).find?
        (fun f => f.itag == (137 : Int))) ∧
    ({ fmtAudio140 with url := "https://host.example/audio" } : VideoFormat).url ≠ "" :=
  ⟨(c3_itag_dedup_and_url_nonempty demoJobs (fun s => s) (fun s => s)).2.2.1 137,
   (c3_itag_dedup_and_url_nonempty demoJobs (fun s => s) (fun s => s)).2.2.2
     { fmtAudio140 with url := "https://host.example/audio" } (by decide)⟩

/-- C4, counterexample: the chunk FIFO is NOT bounded — no queue depth `D`
bounds the queue length over all push/read sequences, because `push_data`
appends unconditionally and never waits. -/
theorem c4_counterexample :
    ¬ ∃ D : Nat, ∀ ops : List StreamOp,
        (runStream ops).buffer_queue.length ≤ D := by
  rintro ⟨D, h⟩
  have hrun := h (List.replicate (D + 1) (StreamOp.push []))
  unfold runStream at hrun
  rw [pushRun_length [] (D + 1) {} rfl rfl rfl] at hrun
  simp at hrun

/-- C4, amended: the chunk FIFO is unbounded — for every depth `D` some
sequence of producer pushes leaves more than `D` chunks queued, and a push
on a non-cancelled state with no pending reader simply appends the chunk
(the producer never blocks). -/
theorem c4_queue_unbounded :
    (∀ D : Nat, ∃ ops : List StreamOp,
        D < (runStream ops).buffer_queue.length) ∧
    (∀ (s : AudioStreamState) (data : List Nat),
        s.cancelled = false → s.pending_read = none → s.pending_alloc_read = false →
        streamStep s (StreamOp.push data) =
          { s with buffer_queue := s.buffer_queue ++ [data] }) := by
  constructor
  · intro D
    refine ⟨List.replicate (D + 1) (StreamOp.push []), ?_⟩
    unfold runStream
    rw [pushRun_length [] (D + 1) {} rfl rfl rfl]
    simp
  · intro s data hc hp ha
    simp [streamStep, push_data, hc, hp, ha]

/-- Witness for C4: a push on the freshly-opened stream appends the chunk. -/
theorem c4_queue_unbounded_witness :
    streamStep {} (StreamOp.push [7]) =
      { buffer_queue := [[7]] } := by
  have h := c4_queue_unbounded.2 {} [7] rfl rfl rfl
  simpa using h

/-- C5, counterexample: the selector does NOT implement itag or
`"bestvideo"` selection — `"bestvideo"` also populates the audio slot,
`"140"` returns the generic (video, audio) pair rather than the format
with itag 140, and `"137+140"` behaves identically to `"best"`. -/
theorem c5_counterexample :
    (select_streams demoFormats "bestvideo" none).audio = some fmtAudio140 ∧
    select_streams demoFormats "140" none =
      { video := some fmtVideo137, audio := some fmtAudio140 } ∧
    select_streams demoFormats "137+140" none =
      select_streams demoFormats "best" none := by
  refine ⟨by decide, by decide, by decide⟩

/-- C5, amended: only `"bestaudio"` is treated specially by the selector;
every other selector string — including `"best"`, `"bestvideo"`,
`"<itag>"` and `"<itag>+<itag>"` — is handled by one generic path and
therefore produces the same (best video-bearing, best audio-only) pair;
itag-based selection is not implemented. -/
theorem c5_selector_generic (l : List VideoFormat) (pl : Option String)
    (s1 s2 : String) (h1 : s1 ≠ "bestaudio") (h2 : s2 ≠ "bestaudio") :
    select_streams l s1 pl = select_streams l s2 pl := by
  unfold select_streams
  rw [if_neg h1, if_neg h2]

/-- Witness for C5: `"bestvideo"` and `"137+140"` select identically. -/
theorem c5_selector_generic_witness :
    select_streams demoFormats "bestvideo" none =
      select_streams demoFormats "137+140" none :=
  c5_selector_generic demoFormats none "bestvideo" "137+140"
    (by decide) (by decide)

/-- C6: `"bestaudio"` populates only the audio slot; with no
preferred-language match the selected format attains the maximum of the
lexicographic key (language_preference, audio_channels, codec score, tbr)
over all audio-only candidates; when at least one candidate matches the
preferred language, the best matching candidate is selected instead; and
the audio slot of every other selector (in particular `"best"`) is
computed by the same scan, so the same properties hold for it. -/
theorem c6_audio_ranking (l : List VideoFormat) (plo : Option String) :
    (select_streams l "bestaudio" plo).video = none ∧
    (matchCands plo l = [] →
      isMaxOf (select_streams l "bestaudio" plo).audio (audioCands l)) ∧
    (matchCands plo l ≠ [] →
      ∃ g, (select_streams l "bestaudio" plo).audio = some g ∧
        isMaxOf (some g) (matchCands plo l)) ∧
    (∀ sel : String, sel ≠ "bestaudio" →
      (select_streams l sel plo).audio = (select_streams l "bestaudio" plo).audio) := by
  have hP : isMaxOf (selectAudioPair plo l).1 (matchCands plo l) := by
    have h := (foldAudio_inv plo l none none [] [] rfl rfl).1
    simpa [selectAudioPair] using h
  have hB : isMaxOf (selectAudioPair plo l).2 (audioCands l) := by
    have h := (foldAudio_inv plo l none none [] [] rfl rfl).2
    simpa [selectAudioPair] using h
  have hgen : ∀ sel : String, sel ≠ "bestaudio" →
      (select_streams l sel plo).audio = (select_streams l "bestaudio" plo).audio := by
    intro sel hsel
    simp only [select_streams, if_neg hsel, if_pos rfl]
    rw [foldGeneral_audio plo l none none none]
    rfl
  refine ⟨by simp [select_streams], ?_, ?_, hgen⟩
  · intro hempty
    cases hp : (selectAudioPair plo l).1 with
    | none =>
        have haudio : (select_streams l "bestaudio" plo).audio =
            (selectAudioPair plo l).2 := by
          simp [select_streams, hp]
        rw [haudio]
        exact hB
    | some g =>
        rw [hp] at hP
        simp only [isMaxOf] at hP
        rw [hempty] at hP
        exact absurd hP.1 (List.not_mem_nil g)
  · intro hne
    cases hp : (selectAudioPair plo l).1 with
    | none =>
        rw [hp] at hP
        simp only [isMaxOf] at hP
        exact absurd hP hne
    | some g =>
        refine ⟨g, by simp [select_streams, hp], ?_⟩
        rw [hp] at hP
        exact hP

/-- Witness for C6: with preferred language `"es"`, the Spanish aac track
beats the globally better-ranked English opus track. -/
theorem c6_audio_ranking_witness :
    matchCands (some "es") demoAudioFormats ≠ [] ∧
    ∃ g, (select_streams demoAudioFormats "bestaudio" (some "es")).audio = some g ∧
      isMaxOf (some g) (matchCands (some "es") demoAudioFormats) :=
  ⟨by decide, (c6_audio_ranking demoAudioFormats (some "es")).2.2.1 (by decide)⟩

/-- C7, counterexample: a chunk response with an unexpected status (404)
makes the download session post `request_failed`, NOT the claimed
`http_error`. -/
theorem c7_counterexample :
    downloadFailureKind (DlEvent.headerStatus 404) = some Errc.request_failed ∧
    downloadFailureKind (DlEvent.headerStatus 404) ≠ some Errc.http_error := by
  exact ⟨rfl, by decide⟩

/-- C7, amended: `download_file` fails with `file_open_failed` exactly when
the output file cannot be opened; transport failures AND unexpected chunk
statuses (neither 200 nor 206) both map to `request_failed`; the kind
`http_error` is never produced by the download session. -/
theorem c7_download_error_kinds :
    (∀ e : DlEvent, downloadFailureKind e = some Errc.file_open_failed ↔
        e = DlEvent.openFileFailed) ∧
    (∀ e : DlEvent, downloadFailureKind e ≠ some Errc.http_error) ∧
    (∀ s : Nat, s ≠ 200 → s ≠ 206 →
        on_read_header s none none = HeaderOutcome.failure Errc.request_failed) ∧
    downloadFailureKind DlEvent.transportError = some Errc.request_failed := by
  refine ⟨?_, ?_, ?_, rfl⟩
  · intro e
    cases e with
    | openFileFailed => simp [downloadFailureKind]
    | urlParseFailed => simp [downloadFailureKind]
    | transportError => simp [downloadFailureKind]
    | headerStatus s =>
        simp only [downloadFailureKind, on_read_header]
        by_cases h200 : s = 200
        · simp [h200]
        · by_cases h206 : s = 206
          · simp [h200, h206]
          · simp [h200, h206]
  · intro e
    cases e with
    | openFileFailed => simp [downloadFailureKind]
    | urlParseFailed => simp [downloadFailureKind]
    | transportError => simp [downloadFailureKind]
    | headerStatus s =>
        simp only [downloadFailureKind, on_read_header]
        by_cases h200 : s = 200
        · simp [h200]
        · by_cases h206 : s = 206
          · simp [h200, h206]
          · simp [h200, h206]
  · intro s h200 h206
    simp [on_read_header, h200, h206]

/-- Witness for C7: status 404 is mapped by `on_read_header` to a
`request_failed` failure. -/
theorem c7_download_error_kinds_witness :
    on_read_header 404 none none = HeaderOutcome.failure Errc.request_failed :=
  c7_download_error_kinds.2.2.1 404 (by decide) (by decide)

/-- C8, counterexample: a run whose extraction (or download) reported an
error still exits with code 0 — `run_app` only prints the error and
`main` returns 0 after `ioc.run()`. -/
theorem c8_counterexample :
    mainExitCode (CliInvocation.run RunOutcome.extractionFailed) = 0 ∧
    mainExitCode (CliInvocation.run RunOutcome.downloadFailed) ≠ 1 := by
  exact ⟨rfl, by decide⟩

/-- C8, amended: the process exits 1 only for a missing URL, bad or failed
`--manual-merge` invocations, and uncaught exceptions; every run that
reaches `run_app` — including runs whose extraction, download or search
failed — exits 0. -/
theorem c8_exit_codes :
    (∀ r : RunOutcome, mainExitCode (CliInvocation.run r) = 0) ∧
    mainExitCode CliInvocation.help = 0 ∧
    mainExitCode CliInvocation.missingUrl = 1 ∧
    mainExitCode CliInvocation.manualMergeBadArgs = 1 ∧
    mainExitCode (CliInvocation.manualMerge true) = 0 ∧
    mainExitCode (CliInvocation.manualMerge false) = 1 ∧
    mainExitCode CliInvocation.uncaughtException = 1 := by
  exact ⟨fun r => rfl, rfl, rfl, rfl, rfl, rfl, rfl⟩

/-- C9: when the solver never reached the ready state (no function names
were extracted), `decipher_signature` and `transform_n` are the identity
on every input, and the final reconstructed URL of a format that already
carried a URL differs from it at most by the substitution of the value of
its `n` query parameter. -/
theorem c9_identity_degradation (d : SigDecipherer)
    (hs : d.sig_func_name = []) (hn : d.n_func_name = []) :
    (∀ s, decipher_signature d s = s) ∧
    (∀ n, transform_n d n = n) ∧
    (∀ j : FmtJob, j.fmt.url ≠ "" →
      processFmt (decipher_signature d) (transform_n d) j =
        some { j.fmt with
          url := String.mk (processUrlN (transform_n d) j.fmt.url.toList) } ∧
      nSubstOnly j.fmt.url.toList
        (processUrlN (transform_n d) j.fmt.url.toList)) := by
  refine ⟨fun s => by simp [decipher_signature, hs],
    fun n => by simp [transform_n, hn], ?_⟩
  intro j hurl
  constructor
  · unfold processFmt
    rw [if_neg hurl]
  · exact processUrlN_nSubstOnly _ _

/-- Witness for C9 at a dead decipherer and a URL-carrying format. -/
theorem c9_identity_degradation_witness :
    decipher_signature deadDecipherer ("sigvalue".toList) = "sigvalue".toList ∧
    processFmt (decipher_signature deadDecipherer) (transform_n deadDecipherer)
        fmtWithUrl =
      some { fmtWithUrl.fmt with
        url := String.mk (processUrlN (transform_n deadDecipherer)
          fmtWithUrl.fmt.url.toList) } :=
  ⟨(c9_identity_degradation deadDecipherer rfl rfl).1 _,
   ((c9_identity_degradation deadDecipherer rfl rfl).2.2 fmtWithUrl (by decide)).1⟩

/-- C10: after `shutdown`, every `async_process` call completes with
`request_failed` and leaves the extractor state unchanged (no session is
registered or started), and `shutdown` itself is idempotent. -/
theorem c10_shutdown :
    (∀ st : ExtractorImpl, st.shutdown_flag = true →
        Extractor_async_process st =
          (st, ProcessResult.completedWithError Errc.request_failed)) ∧
    (∀ st : ExtractorImpl,
        Extractor_shutdown (Extractor_shutdown st) = Extractor_shutdown st) := by
  constructor
  · intro st h
    simp [Extractor_async_process, h]
  · intro st
    unfold Extractor_shutdown
    by_cases h : st.shutdown_flag <;> simp [h]

/-- Witness for C10: processing on a shut-down extractor is rejected with
`request_failed` and does not change the state. -/
theorem c10_shutdown_witness :
    Extractor_async_process { shutdown_flag := true } =
      ({ shutdown_flag := true },
        ProcessResult.completedWithError Errc.request_failed) :=
  c10_shutdown.1 { shutdown_flag := true } rfl

end Ytdlpp
